import Mathlib

/-!
Verification of the LifeLink AI health-report pipeline (`app.py`).

The Python string operations are modelled over `List Char`.  Each definition
mirrors one function (or one block) of the source file; external collaborators
(the reportlab `Paragraph` constructor, the Gemini generative service and the
gTTS synthesiser) are passed in as explicit oracles, since their internals are
outside the program.
-/

/-! ## Python string primitives -/

/-- Fuel-driven worker for Python `str.replace`: scans left to right, emitting
the replacement at each leftmost non-overlapping pattern match.  The fuel is
structural so that the kernel can evaluate the function. -/
def strReplaceAux (pat rep : List Char) : Nat → List Char → List Char
  | 0, s => s
  | _ + 1, [] => []
  | f + 1, c :: rest =>
    if pat ≠ [] ∧ pat.isPrefixOf (c :: rest) = true then
      rep ++ strReplaceAux pat rep f (rest.drop (pat.length - 1))
    else
      c :: strReplaceAux pat rep f rest

/-- Python `str.replace(pat, rep)`: leftmost, non-overlapping replacement.
A (never used) empty pattern is treated as a no-op. -/
def strReplace (pat rep s : List Char) : List Char :=
  strReplaceAux pat rep s.length s

theorem strReplaceAux_nil (pat rep : List Char) (f : Nat) :
    strReplaceAux pat rep f [] = [] := by
  cases f <;> rfl

/-- The result of `strReplaceAux` does not depend on the fuel, as long as the
fuel covers the length of the string. -/
theorem strReplaceAux_irrel (pat rep : List Char) :
    ∀ f₁ f₂ s, s.length ≤ f₁ → s.length ≤ f₂ →
      strReplaceAux pat rep f₁ s = strReplaceAux pat rep f₂ s := by
  intro f₁
  induction f₁ with
  | zero =>
    intro f₂ s h1 _
    have hs : s = [] := List.length_eq_zero.mp (Nat.le_zero.mp h1)
    subst hs
    simp [strReplaceAux_nil]
  | succ f ih =>
    intro f₂ s h1 h2
    cases s with
    | nil => simp [strReplaceAux_nil]
    | cons c rest =>
      cases f₂ with
      | zero => simp at h2
      | succ g =>
        by_cases hcond : pat ≠ [] ∧ pat.isPrefixOf (c :: rest) = true
        · simp only [strReplaceAux, if_pos hcond]
          congr 1
          have hd : (rest.drop (pat.length - 1)).length ≤ rest.length := by
            simp [List.length_drop]
          have h1' : rest.length ≤ f := by simpa using h1
          have h2' : rest.length ≤ g := by simpa using h2
          exact ih g _ (le_trans hd h1') (le_trans hd h2')
        · simp only [strReplaceAux, if_neg hcond]
          have h1' : rest.length ≤ f := by simpa using h1
          have h2' : rest.length ≤ g := by simpa using h2
          exact congrArg _ (ih g rest h1' h2')

theorem strReplace_nil (pat rep : List Char) : strReplace pat rep [] = [] := rfl

/-- One-step unfolding of `strReplace` on a cons cell. -/
theorem strReplace_cons (pat rep : List Char) (c : Char) (rest : List Char) :
    strReplace pat rep (c :: rest)
      = if pat ≠ [] ∧ pat.isPrefixOf (c :: rest) = true then
          rep ++ strReplace pat rep (rest.drop (pat.length - 1))
        else
          c :: strReplace pat rep rest := by
  unfold strReplace
  have hlen : (c :: rest).length = rest.length + 1 := rfl
  rw [hlen]
  by_cases hcond : pat ≠ [] ∧ pat.isPrefixOf (c :: rest) = true
  · simp only [strReplaceAux, if_pos hcond]
    congr 1
    exact strReplaceAux_irrel pat rep rest.length _ _
      (by simp [List.length_drop]) le_rfl
  · simp only [strReplaceAux, if_neg hcond]

/-- Python `pat in s` (substring test). -/
def containsSub (pat : List Char) : List Char → Bool
  | [] => pat.isEmpty
  | c :: rest => pat.isPrefixOf (c :: rest) || containsSub pat rest

/-- The characters Python `str.strip()` removes. -/
def isPySpace (c : Char) : Bool :=
  c = ' ' ∨ c = '\t' ∨ c = '\n' ∨ c = '\r' ∨ c = Char.ofNat 11 ∨ c = Char.ofNat 12

/-- Python `str.strip()`. -/
def pyStrip (s : List Char) : List Char :=
  ((s.dropWhile isPySpace).reverse.dropWhile isPySpace).reverse

/-- A character the ASCII codec can encode. -/
def isAsciiChar (c : Char) : Bool := decide (c.toNat < 128)

/-- Python `s.encode('ascii', 'ignore').decode('ascii')`: drop non-ASCII. -/
def encodeAsciiIgnore (s : List Char) : List Char := s.filter isAsciiChar

/-- Python `s.split(c)` for a single-character separator (keeps empty parts). -/
def pySplitOn (sep : Char) : List Char → List (List Char)
  | [] => [[]]
  | c :: rest =>
    match pySplitOn sep rest with
    | [] => [[]]
    | h :: t => if c = sep then [] :: h :: t else (c :: h) :: t

/-- Python dict `.get(k, d)` over an association list. -/
def pyDictGet (m : List (List Char × List Char)) (k d : List Char) : List Char :=
  match m with
  | [] => d
  | (k₁, v) :: rest => if k₁ = k then v else pyDictGet rest k d

/-! ## Extractor: `extract_text_from_pdf` (app.py lines 41-54)

`pages` is the per-page result of `page.extract_text()`: `none` models a
`None` return, `some []` an empty string; both are falsy in Python, so the
page is skipped. -/

/-- The extractor `extract_text_from_pdf`: concatenate the truthy page texts, each followed
by a newline, then `strip()` the result. -/
def extract_text_from_pdf (pages : List (Option (List Char))) : List Char :=
  pyStrip (pages.foldl
    (fun text pt =>
      match pt with
      | some p => if p ≠ [] then text ++ p ++ ['\n'] else text
      | none => text)
    [])

/-! ## The analyze gate in `main` (app.py lines 313-330) -/

/-- Outcome of pressing "Analyze Report": the length gate either reports
insufficient content or hands the extracted text to the Summarizer. -/
inductive AnalyzeOutcome where
  | insufficient
  | summarized (text : List Char)
deriving DecidableEq

/-- Lines 313-330 of `main`: extract, apply the
`if not report_text or len(report_text) < 50` gate, and only in the other
branch call `generate_health_summary` (the Gemini call, modelled by the
oracle `gen`). -/
def analyzeReport (gen : List Char → List Char → List Char)
    (pages : List (Option (List Char))) (language : List Char) : AnalyzeOutcome :=
  let report_text := extract_text_from_pdf pages
  if report_text = [] ∨ report_text.length < 50 then
    AnalyzeOutcome.insufficient
  else
    AnalyzeOutcome.summarized (gen report_text language)

/-- C1: the pipeline reaches the Summarizer iff the extracted text has at
least 50 characters. -/
theorem analyzeReport_gate (gen : List Char → List Char → List Char)
    (pages : List (Option (List Char))) (language : List Char) :
    (analyzeReport gen pages language = AnalyzeOutcome.insufficient
      ↔ (extract_text_from_pdf pages).length < 50)
    ∧ ((extract_text_from_pdf pages).length < 50 →
        ∀ gen₂ : List Char → List Char → List Char,
          analyzeReport gen pages language = analyzeReport gen₂ pages language)
    ∧ (50 ≤ (extract_text_from_pdf pages).length →
        analyzeReport gen pages language
          = AnalyzeOutcome.summarized (gen (extract_text_from_pdf pages) language)) := by
  unfold analyzeReport
  by_cases h : extract_text_from_pdf pages = [] ∨ (extract_text_from_pdf pages).length < 50
  · refine ⟨?_, ?_, ?_⟩
    · simp only [if_pos h, true_iff]
      rcases h with h | h
      · simp [h]
      · exact h
    · intro _ gen₂
      simp [if_pos h]
    · intro hge
      exfalso
      rcases h with h | h
      · simp [h] at hge
      · omega
  · refine ⟨?_, ?_, ?_⟩
    · simp only [if_neg h]
      push_neg at h
      constructor
      · intro hc
        exact absurd hc (by simp)
      · intro hlt
        omega
    · intro hlt
      push_neg at h
      omega
    · intro _
      simp [if_neg h]

/-! ## Lemmas about `strReplace` and `containsSub` -/

theorem strReplace_cons_pos {pat : List Char} (rep : List Char) {c : Char}
    {rest : List Char} (h₁ : pat ≠ []) (h₂ : pat.isPrefixOf (c :: rest) = true) :
    strReplace pat rep (c :: rest)
      = rep ++ strReplace pat rep (rest.drop (pat.length - 1)) := by
  rw [strReplace_cons, if_pos ⟨h₁, h₂⟩]

theorem strReplace_cons_neg {pat : List Char} (rep : List Char) {c : Char}
    {rest : List Char} (h : ¬(pat ≠ [] ∧ pat.isPrefixOf (c :: rest) = true)) :
    strReplace pat rep (c :: rest) = c :: strReplace pat rep rest := by
  rw [strReplace_cons, if_neg h]

/-- Single-character patterns: `strReplace` acts characterwise. -/
theorem strReplace_single (a : Char) (rep : List Char) (c : Char) (t : List Char) :
    strReplace [a] rep (c :: t)
      = if c = a then rep ++ strReplace [a] rep t else c :: strReplace [a] rep t := by
  by_cases hca : c = a
  · subst hca
    rw [if_pos rfl, strReplace_cons_pos rep (by simp) (by simp [List.isPrefixOf])]
    simp
  · rw [if_neg hca, strReplace_cons_neg rep]
    intro hand
    have := hand.2
    simp [List.isPrefixOf] at this
    exact hca this.symm

theorem containsSub_nil (pat : List Char) : containsSub pat [] = pat.isEmpty := rfl

theorem containsSub_cons (pat : List Char) (c : Char) (rest : List Char) :
    containsSub pat (c :: rest)
      = (pat.isPrefixOf (c :: rest) || containsSub pat rest) := rfl

theorem isPrefixOf_append_self (p x : List Char) : p.isPrefixOf (p ++ x) = true := by
  induction p with
  | nil => simp [List.isPrefixOf]
  | cons c t ih => simp [List.isPrefixOf, ih]

theorem containsSub_of_isPrefixOf {pat s : List Char}
    (h : pat.isPrefixOf s = true) : containsSub pat s = true := by
  cases s with
  | nil =>
    cases pat with
    | nil => rfl
    | cons c t => simp [List.isPrefixOf] at h
  | cons c rest => simp [containsSub_cons, h]

theorem containsSub_tail {pat : List Char} (c : Char) {rest : List Char}
    (h : containsSub pat rest = true) : containsSub pat (c :: rest) = true := by
  simp [containsSub_cons, h]

theorem containsSub_append_left {pat s : List Char} (x : List Char)
    (h : containsSub pat s = true) : containsSub pat (x ++ s) = true := by
  induction x with
  | nil => simpa using h
  | cons c t ih => exact containsSub_tail c ih

theorem containsSub_self_append (p x : List Char) : containsSub p (p ++ x) = true := by
  cases p with
  | nil =>
    cases x with
    | nil => rfl
    | cons c t => simp [containsSub_cons, List.isPrefixOf]
  | cons c t =>
    have hp := isPrefixOf_append_self (c :: t) x
    simp only [List.cons_append] at hp
    simp [containsSub_cons, hp]

theorem isPrefixOf_trans {p q r : List Char} (hpq : p.isPrefixOf q = true)
    (hqr : q.isPrefixOf r = true) : p.isPrefixOf r = true := by
  rw [List.isPrefixOf_iff_prefix] at *
  exact hpq.trans hqr

/-- A substring test for a pattern transfers to any prefix of that pattern. -/
theorem containsSub_of_prefixOf {p q s : List Char}
    (hpq : p.isPrefixOf q = true) (h : containsSub q s = true) :
    containsSub p s = true := by
  induction s with
  | nil =>
    have hq : q = [] := by
      cases q with
      | nil => rfl
      | cons c t => simp [containsSub_nil] at h
    subst hq
    have hp : p = [] := by
      cases p with
      | nil => rfl
      | cons c t => simp [List.isPrefixOf] at hpq
    subst hp
    rfl
  | cons c rest ih =>
    rw [containsSub_cons] at h
    rcases Bool.or_eq_true_iff.mp h with h | h
    · have : p.isPrefixOf (c :: rest) = true := isPrefixOf_trans hpq h
      simp [containsSub_cons, this]
    · exact containsSub_tail c (ih h)

/-- A matched pattern occurrence decomposes the string. -/
theorem cons_eq_pat_append_drop {pat : List Char} {a : Char} {rest : List Char}
    (hne : pat ≠ []) (hpre : pat.isPrefixOf (a :: rest) = true) :
    a :: rest = pat ++ rest.drop (pat.length - 1) := by
  obtain ⟨t, ht⟩ := List.isPrefixOf_iff_prefix.mp hpre
  have h1 : (pat ++ t).drop pat.length = t := List.drop_left _ _
  rw [ht] at h1
  cases pat with
  | nil => exact absurd rfl hne
  | cons p ps =>
    simp only [List.length_cons, List.drop_succ_cons] at h1
    rw [show (p :: ps).length - 1 = ps.length from rfl, h1]
    exact ht.symm

/-- Characters of a replaced string come from the replacement or the input. -/
theorem mem_rep_or_mem_of_mem_strReplaceAux (pat rep : List Char) (x : Char) :
    ∀ f s, x ∈ strReplaceAux pat rep f s → x ∈ rep ∨ x ∈ s := by
  intro f
  induction f with
  | zero => exact fun s h => Or.inr h
  | succ f ih =>
    intro s h
    cases s with
    | nil => rw [strReplaceAux_nil] at h; cases h
    | cons c rest =>
      by_cases hcond : pat ≠ [] ∧ pat.isPrefixOf (c :: rest) = true
      · simp only [strReplaceAux, if_pos hcond] at h
        rcases List.mem_append.mp h with h | h
        · exact Or.inl h
        · rcases ih _ h with h | h
          · exact Or.inl h
          · exact Or.inr (List.mem_cons_of_mem _ (List.mem_of_mem_drop h))
      · simp only [strReplaceAux, if_neg hcond] at h
        rcases List.mem_cons.mp h with h | h
        · exact Or.inr (h ▸ List.mem_cons_self _ _)
        · rcases ih _ h with h | h
          · exact Or.inl h
          · exact Or.inr (List.mem_cons_of_mem _ h)

theorem mem_rep_or_mem_of_mem_strReplace {pat rep s : List Char} {x : Char}
    (h : x ∈ strReplace pat rep s) : x ∈ rep ∨ x ∈ s :=
  mem_rep_or_mem_of_mem_strReplaceAux pat rep x s.length s h

/-- A character not occurring in the pattern survives the replacement. -/
theorem mem_strReplaceAux_of_mem (pat rep : List Char) (x : Char) (hxp : x ∉ pat) :
    ∀ f s, x ∈ s → x ∈ strReplaceAux pat rep f s := by
  intro f
  induction f with
  | zero => exact fun s h => h
  | succ f ih =>
    intro s h
    cases s with
    | nil => cases h
    | cons c rest =>
      by_cases hcond : pat ≠ [] ∧ pat.isPrefixOf (c :: rest) = true
      · simp only [strReplaceAux, if_pos hcond]
        have hdecomp := cons_eq_pat_append_drop hcond.1 hcond.2
        rw [hdecomp] at h
        rcases List.mem_append.mp h with h | h
        · exact absurd h hxp
        · exact List.mem_append.mpr (Or.inr (ih _ h))
      · simp only [strReplaceAux, if_neg hcond]
        rcases List.mem_cons.mp h with h | h
        · exact h ▸ List.mem_cons_self _ _
        · exact List.mem_cons_of_mem _ (ih _ h)

theorem mem_strReplace_of_mem {pat rep s : List Char} {x : Char}
    (hxp : x ∉ pat) (h : x ∈ s) : x ∈ strReplace pat rep s :=
  mem_strReplaceAux_of_mem pat rep x hxp s.length s h

/-- If the pattern occurs nowhere, the replacement is the identity. -/
theorem strReplaceAux_eq_self_of_not_containsSub (pat rep : List Char) :
    ∀ f s, containsSub pat s = false → strReplaceAux pat rep f s = s := by
  intro f
  induction f with
  | zero => exact fun s _ => rfl
  | succ f ih =>
    intro s h
    cases s with
    | nil => exact strReplaceAux_nil pat rep _
    | cons c rest =>
      rw [containsSub_cons, Bool.or_eq_false_iff] at h
      have hcond : ¬(pat ≠ [] ∧ pat.isPrefixOf (c :: rest) = true) := by
        intro hand
        rw [hand.2] at h
        simp at h
      simp only [strReplaceAux, if_neg hcond]
      exact congrArg _ (ih rest h.2)

theorem strReplace_eq_self_of_not_containsSub {pat s : List Char} (rep : List Char)
    (h : containsSub pat s = false) : strReplace pat rep s = s :=
  strReplaceAux_eq_self_of_not_containsSub pat rep s.length s h

/-- Single-character pattern, character absent from the replacement: the
character is gone from the output. -/
theorem not_mem_strReplace_single {a : Char} {rep : List Char} (ha : a ∉ rep) :
    ∀ s, a ∉ strReplace [a] rep s := by
  intro s
  induction s with
  | nil => simp [strReplace_nil]
  | cons c t ih =>
    rw [strReplace_single]
    by_cases hca : c = a
    · rw [if_pos hca]
      intro hmem
      rcases List.mem_append.mp hmem with h | h
      · exact ha h
      · exact ih h
    · rw [if_neg hca]
      intro hmem
      rcases List.mem_cons.mp hmem with h | h
      · exact hca h.symm
      · exact ih h

/-- Single-character pattern present in the input: the replacement text occurs
in the output. -/
theorem containsSub_rep_strReplace_single {a : Char} {rep : List Char} :
    ∀ {s : List Char}, a ∈ s → containsSub rep (strReplace [a] rep s) = true := by
  intro s
  induction s with
  | nil => intro h; cases h
  | cons c t ih =>
    intro h
    rw [strReplace_single]
    by_cases hca : c = a
    · rw [if_pos hca]
      exact containsSub_self_append rep _
    · rw [if_neg hca]
      rcases List.mem_cons.mp h with h | h
      · exact absurd h.symm hca
      · exact containsSub_tail c (ih h)

/-- Single-character patterns distribute over append. -/
theorem strReplace_single_append (a : Char) (rep : List Char) :
    ∀ x y, strReplace [a] rep (x ++ y)
      = strReplace [a] rep x ++ strReplace [a] rep y := by
  intro x y
  induction x with
  | nil => simp [strReplace_nil]
  | cons c t ih =>
    rw [List.cons_append, strReplace_single, strReplace_single]
    by_cases hca : c = a
    · rw [if_pos hca, if_pos hca, ih, List.append_assoc]
    · rw [if_neg hca, if_neg hca, ih, List.cons_append]

theorem containsSub_singleton_eq_false {c : Char} {s : List Char} (h : c ∉ s) :
    containsSub [c] s = false := by
  induction s with
  | nil => rfl
  | cons d t ih =>
    rw [containsSub_cons, Bool.or_eq_false_iff]
    constructor
    · have hcd : ¬ c = d := fun he => h (he ▸ List.mem_cons_self _ _)
      simp [List.isPrefixOf, hcd]
    · exact ih (fun hm => h (List.mem_cons_of_mem _ hm))

/-! ## Summarizer: `generate_health_summary` (app.py lines 57-86)

The function builds one prompt string (an f-string in the source, transcribed
here with its two interpolation holes: the report body and the optional
translation directive) and sends it to the generative service. -/

/-- Prompt segment before the `report_text` hole. -/
def promptIntro : List Char :=
  "You are a helpful medical assistant for LifeLink AI, a health monitoring system.\n\nAnalyze the following health report and provide a clear, easy-to-understand summary for the patient.\n\nHealth Report:\n".toList

/-- Prompt segment between the `report_text` hole and the
`language_instruction` hole. -/
def promptSections : List Char :=
  "\n\nPlease provide:\n1. *Key Findings*: Main health indicators and their values\n2. *What This Means*: Explain in simple, non-technical language what these results indicate\n3. *Recommendations*: Basic health advice based on the report (general wellness tips only, not medical prescriptions)\n4. *Important Notes*: Any values that seem out of normal range (mark with ⚠ if concerning)\n\nWrite in a friendly, reassuring tone. Avoid complex medical jargon. Use bullet points for clarity.".toList

/-- Prompt segment after the `language_instruction` hole. -/
def promptFooter : List Char :=
  "\n\nNote: This is an AI-generated summary and should not replace professional medical advice.".toList

/-- Lines 61-63: the translation directive, empty exactly for `"English"`. -/
def language_instruction (language : List Char) : List Char :=
  if language = ("English".toList) then []
  else
    ("\n\nIMPORTANT: Translate the entire summary into ".toList) ++ language
      ++ (" language. Use simple, everyday ".toList) ++ language
      ++ (" words that anyone can understand.".toList)

/-- Lines 65-80: the full prompt handed to the generative service. -/
def generate_health_summary_prompt (report_text language : List Char) : List Char :=
  promptIntro ++ report_text ++ promptSections
    ++ language_instruction language ++ promptFooter

/-- The filler segments of `promptSections` around the four section labels. -/
def sectPre : List Char := "\n\nPlease provide:\n".toList

def sectMid1 : List Char := ": Main health indicators and their values\n".toList

def sectMid2 : List Char :=
  ": Explain in simple, non-technical language what these results indicate\n".toList

def sectMid3 : List Char :=
  ": Basic health advice based on the report (general wellness tips only, not medical prescriptions)\n".toList

def sectPost : List Char :=
  ": Any values that seem out of normal range (mark with ⚠ if concerning)\n\nWrite in a friendly, reassuring tone. Avoid complex medical jargon. Use bullet points for clarity.".toList

/-- C6: the prompt is a fixed deterministic template around the report text,
with the four section labels requested in the order Key Findings → What This
Means → Recommendations → Important Notes, and the translation directive
(naming the language twice and asking for simple vocabulary) present exactly
when the language is not `"English"`. -/
theorem generate_prompt_structure (report_text language : List Char) :
    generate_health_summary_prompt report_text language
      = promptIntro ++ report_text
        ++ (sectPre ++ ("1. *Key Findings*".toList) ++ sectMid1
            ++ ("2. *What This Means*".toList) ++ sectMid2
            ++ ("3. *Recommendations*".toList) ++ sectMid3
            ++ ("4. *Important Notes*".toList) ++ sectPost)
        ++ (if language = ("English".toList) then []
            else
              ("\n\nIMPORTANT: Translate the entire summary into ".toList) ++ language
                ++ (" language. Use simple, everyday ".toList) ++ language
                ++ (" words that anyone can understand.".toList))
        ++ promptFooter := by
  have hsect : promptSections
      = sectPre ++ ("1. *Key Findings*".toList) ++ sectMid1
          ++ ("2. *What This Means*".toList) ++ sectMid2
          ++ ("3. *Recommendations*".toList) ++ sectMid3
          ++ ("4. *Important Notes*".toList) ++ sectPost := by
    set_option maxRecDepth 4000 in rfl
  unfold generate_health_summary_prompt language_instruction
  rw [hsect]

/-! ## Narrator: `text_to_speech` (app.py lines 193-221) -/

/-- Line 199-204: the gTTS locale table. -/
def lang_map : List (List Char × List Char) :=
  [("English".toList, "en".toList), ("Hindi".toList, "hi".toList),
   ("Marathi".toList, "mr".toList), ("Kannada".toList, "kn".toList)]

/-- Line 207: the narrator's markup-stripping pass. -/
def tts_markup_clean (text : List Char) : List Char :=
  strReplace ['#'] [] (strReplace ['*'] [] (strReplace ['*', '*'] [] text))

/-- Lines 207-208: markup-stripping followed by the warning-glyph
substitution: the text actually submitted to synthesis. -/
def clean_text_for_tts (text : List Char) : List Char :=
  strReplace ['⚠'] ("Warning: ".toList) (tts_markup_clean text)

/-- Lines 193-221 of `text_to_speech`: locale resolution via
`lang_map.get(language, "en")`, then the synthesis call (oracle `synthOk`);
the only failure is a failing synthesis call. -/
def text_to_speech (synthOk : List Char → List Char → Bool)
    (text language : List Char) : Except Unit (List Char × List Char) :=
  let clean_text := clean_text_for_tts text
  let locale := pyDictGet lang_map language ("en".toList)
  if synthOk clean_text locale then Except.ok (clean_text, locale)
  else Except.error ()

/-- C7: the locale map has exactly the four UI languages as keys; any other
language resolves to the default locale `"en"` instead of failing, and
`text_to_speech` fails exactly when the synthesis call fails. -/
theorem tts_language_fallback (language : List Char)
    (h : language ∉ [("English".toList), ("Hindi".toList),
                     ("Marathi".toList), ("Kannada".toList)]) :
    (lang_map.map Prod.fst
        = [("English".toList), ("Hindi".toList),
           ("Marathi".toList), ("Kannada".toList)])
    ∧ pyDictGet lang_map language ("en".toList) = ("en".toList)
    ∧ ∀ (synthOk : List Char → List Char → Bool) (text : List Char),
        text_to_speech synthOk text language = Except.error ()
          ↔ synthOk (clean_text_for_tts text) ("en".toList) = false := by
  simp only [List.mem_cons, List.not_mem_nil, or_false, not_or] at h
  obtain ⟨h1, h2, h3, h4⟩ := h
  have hget : pyDictGet lang_map language ("en".toList) = ("en".toList) := by
    simp only [lang_map, pyDictGet]
    rw [if_neg (fun he => h1 he.symm), if_neg (fun he => h2 he.symm),
        if_neg (fun he => h3 he.symm), if_neg (fun he => h4 he.symm)]
  refine ⟨rfl, hget, ?_⟩
  intro synthOk text
  unfold text_to_speech
  rw [hget]
  by_cases hok : synthOk (clean_text_for_tts text) ("en".toList) = true
  · simp [hok]
  · rw [Bool.not_eq_true] at hok
    simp [hok]

/-- Witness for C7 at the concrete unmapped language `"French"`. -/
theorem tts_language_fallback_witness :
    pyDictGet lang_map ("French".toList) ("en".toList) = ("en".toList) :=
  (tts_language_fallback ("French".toList) (by decide)).2.1

/-- C8: if the summary contains the warning glyph, the text submitted to
synthesis contains the literal substring `"Warning:"` and no remaining
glyph. -/
theorem tts_warning_glyph (text : List Char) (h : '⚠' ∈ text) :
    containsSub ("Warning:".toList) (clean_text_for_tts text) = true
    ∧ '⚠' ∉ clean_text_for_tts text := by
  unfold clean_text_for_tts tts_markup_clean
  have h1 : '⚠' ∈ strReplace ['*', '*'] [] text :=
    mem_strReplace_of_mem (by decide) h
  have h2 : '⚠' ∈ strReplace ['*'] [] (strReplace ['*', '*'] [] text) :=
    mem_strReplace_of_mem (by decide) h1
  have h3 : '⚠' ∈ strReplace ['#'] []
      (strReplace ['*'] [] (strReplace ['*', '*'] [] text)) :=
    mem_strReplace_of_mem (by decide) h2
  constructor
  · exact containsSub_of_prefixOf (by decide)
      (@containsSub_rep_strReplace_single '⚠' ("Warning: ".toList) _ h3)
  · exact not_mem_strReplace_single (by decide) _

/-- Witness for C8 at a concrete summary containing the glyph. -/
theorem tts_warning_glyph_witness :
    containsSub ("Warning:".toList) (clean_text_for_tts ("⚠ BP high".toList)) = true
    ∧ '⚠' ∉ clean_text_for_tts ("⚠ BP high".toList) :=
  tts_warning_glyph ("⚠ BP high".toList) (by decide)

/-! ## C9: renderer markup-stripping vs narrator markup-stripping -/

/-- Line 148: the renderer's markup pass over the whole summary. -/
def renderer_markup_clean (summary_text : List Char) : List Char :=
  strReplace ['*'] [] (strReplace ['*', '*'] ("<b>".toList) summary_text)

/-- C9 counterexample: on `"**x"` the renderer produces `"<b>x"` while the
narrator produces `"x"` — the two markup-stripping passes are not the same
transformation. -/
theorem renderer_tts_markup_clean_ne :
    renderer_markup_clean ("**x".toList) ≠ tts_markup_clean ("**x".toList) := by
  decide

/-- C9 amended: the two passes agree exactly on texts with no double-asterisk
and no hash character; they differ on `'**'` (renderer emits a bold tag, the
narrator deletes) and on `'#'` (narrator deletes, renderer keeps). -/
theorem renderer_tts_markup_agree (s : List Char)
    (hds : containsSub ['*', '*'] s = false) (hh : '#' ∉ s) :
    renderer_markup_clean s = tts_markup_clean s := by
  unfold renderer_markup_clean tts_markup_clean
  rw [strReplace_eq_self_of_not_containsSub _ hds,
      strReplace_eq_self_of_not_containsSub _ hds]
  have h1 : '#' ∉ strReplace ['*'] [] s := by
    intro hm
    rcases mem_rep_or_mem_of_mem_strReplace hm with h | h
    · cases h
    · exact hh h
  rw [strReplace_eq_self_of_not_containsSub _ (containsSub_singleton_eq_false h1)]

/-- Witness for the amended C9 at a concrete markup-free text. -/
theorem renderer_tts_markup_agree_witness :
    renderer_markup_clean ("Key Findings: all values normal.".toList)
      = tts_markup_clean ("Key Findings: all values normal.".toList) :=
  renderer_tts_markup_agree ("Key Findings: all values normal.".toList)
    (by decide) (by decide)

/-! ## Renderer: `create_pdf_summary` (app.py lines 89-190)

`paraOk` is the oracle for the external reportlab `Paragraph` constructor:
`paraOk s = false` models `Paragraph(s, body_style)` raising.  `now` is the
value of `datetime.now().strftime('%Y-%m-%d %H:%M')` at render time, made an
explicit argument.  The artifact is the ordered list of flowables handed to
`doc.build`; `Except.error` models the exception that line 190 re-raises. -/

instance {ε α : Type} [DecidableEq ε] [DecidableEq α] : DecidableEq (Except ε α) := fun x y =>
  match x, y with
  | Except.ok a, Except.ok b =>
    if h : a = b then isTrue (by rw [h]) else isFalse (by intro hc; cases hc; exact h rfl)
  | Except.error a, Except.error b =>
    if h : a = b then isTrue (by rw [h]) else isFalse (by intro hc; cases hc; exact h rfl)
  | Except.ok _, Except.error _ => isFalse (by intro h; cases h)
  | Except.error _, Except.ok _ => isFalse (by intro h; cases h)

/-- A reportlab flowable, as far as the artifact's content is concerned. -/
inductive Flowable where
  | para (text : List Char) (style : List Char)
  | spacer (w h : Nat)
deriving DecidableEq

/-- Lines 155-158: escape the XML-reserved characters, in source order
(`&` first, then `<`, then `>`). -/
def xml_escape (para : List Char) : List Char :=
  strReplace ['>'] ("&gt;".toList)
    (strReplace ['<'] ("&lt;".toList)
      (strReplace ['&'] ("&amp;".toList) para))

/-- Line 158: re-install bold tags that the escaping encoded. -/
def restore_bold_tags (safe_para : List Char) : List Char :=
  strReplace ("&lt;/b&gt;".toList) ("</b>".toList)
    (strReplace ("&lt;b&gt;".toList) ("<b>".toList) safe_para)

/-- Lines 156-158: the per-paragraph primary sanitization. -/
def sanitize_para (para : List Char) : List Char :=
  restore_bold_tags (xml_escape para)

/-- Lines 148-149: the whole-summary cleaning before the paragraph split:
markup pass, then `'⚠' → '⚠' + U+FE0F` (emoji variation selector). -/
def renderer_clean_text (summary_text : List Char) : List Char :=
  strReplace ['⚠'] ['⚠', Char.ofNat 65039] (renderer_markup_clean summary_text)

/-- Lines 153-166: one iteration of the paragraph loop.  A blank paragraph
becomes a spacer; otherwise the primary sanitized form is tried, then the
ASCII-stripped fallback; if that raises too, the exception propagates. -/
def process_paragraph (paraOk : List Char → Bool) (para : List Char) :
    Except Unit Flowable :=
  if pyStrip para ≠ [] then
    let safe_para := sanitize_para para
    if paraOk safe_para then
      Except.ok (Flowable.para safe_para ("CustomBody".toList))
    else if paraOk (encodeAsciiIgnore para) then
      Except.ok (Flowable.para (encodeAsciiIgnore para) ("CustomBody".toList))
    else
      Except.error ()
  else
    Except.ok (Flowable.spacer 1 8)

/-- The paragraph loop over the split summary. -/
def build_body (paraOk : List Char → Bool) :
    List (List Char) → Except Unit (List Flowable)
  | [] => Except.ok []
  | p :: rest => do
    let e ← process_paragraph paraOk p
    let r ← build_body paraOk rest
    Except.ok (e :: r)

/-- Lines 89-190: the full flowable list of the PDF artifact, in source
order: title, spacer, language line, generated-timestamp line, by-line,
spacer, body, spacer, disclaimer. -/
def create_pdf_summary (paraOk : List Char → Bool)
    (summary_text language now : List Char) : Except Unit (List Flowable) := do
  let body ← build_body paraOk (pySplitOn '\n' (renderer_clean_text summary_text))
  Except.ok
    ([Flowable.para ("LifeLink AI - Health Report Summary".toList) ("CustomTitle".toList),
      Flowable.spacer 1 12,
      Flowable.para (("Language: ".toList) ++ language) ("CustomSubtitle".toList),
      Flowable.para (("Generated: ".toList) ++ now) ("CustomSubtitle".toList),
      Flowable.para ("Generated by LifeLink AI".toList) ("CustomSubtitle".toList),
      Flowable.spacer 1 20]
      ++ body
      ++ [Flowable.spacer 1 20,
          Flowable.para ("DISCLAIMER: This is an AI-generated summary and should not replace professional medical advice. Always consult with your healthcare provider for medical decisions.".toList) ("Disclaimer".toList)])

/-- C2 counterexample: the same summary and language rendered at two clock
readings give different artifacts — the timestamp is read at render time
(line 143), not fixed when the summary was cached. -/
theorem create_pdf_clock_dependent :
    create_pdf_summary (fun _ => true) ("Summary body.".toList) ("English".toList)
        ("2025-01-01 10:00".toList)
      ≠ create_pdf_summary (fun _ => true) ("Summary body.".toList) ("English".toList)
        ("2025-01-01 10:01".toList) := by
  decide

/-- C2 amended: `create_pdf_summary` is a pure function of the summary text,
the language and the render-time clock string, and the clock string only
enters through the `Generated:` metadata line (element index 3). -/
theorem create_pdf_timestamp_only_dependence
    (paraOk : List Char → Bool) (summary_text language t₁ t₂ : List Char) :
    Except.map
        (fun es => es.set 3
          (Flowable.para (("Generated: ".toList) ++ t₂) ("CustomSubtitle".toList)))
        (create_pdf_summary paraOk summary_text language t₁)
      = create_pdf_summary paraOk summary_text language t₂ := by
  unfold create_pdf_summary
  cases hb : build_body paraOk (pySplitOn '\n' (renderer_clean_text summary_text)) with
  | error e => rfl
  | ok body => rfl

/-- C3 counterexample: for the one-character summary `"é"` the primary path
renders the raw character (no numeric character reference `&#...;` is ever
produced), and when the rendering primitive rejects both sanitization
attempts the paragraph is not replaced by a spacer — the whole document
creation fails. -/
theorem renderer_no_numeric_reference :
    (sanitize_para ['é'] = ['é']
      ∧ isAsciiChar 'é' = false
      ∧ containsSub ("&#".toList) (sanitize_para ['é']) = false)
    ∧ process_paragraph (fun _ => false) ['é'] = Except.error ()
    ∧ create_pdf_summary (fun _ => false) ['é'] ("English".toList)
        ("2025-01-01 10:00".toList) = Except.error () := by
  decide

/-- C3 amended: out-of-repertoire characters pass through the primary
sanitization unchanged (they are never reference-encoded), the fallback
strips them, and a paragraph rejected on both attempts makes
`process_paragraph` — and with it `create_pdf_summary` — fail rather than
degrade to an empty spacer. -/
theorem renderer_nonascii_behaviour
    (paraOk : List Char → Bool) (para : List Char) (c : Char)
    (hc : c ∈ para) (hna : isAsciiChar c = false) :
    c ∈ sanitize_para para
    ∧ (pyStrip para ≠ [] → paraOk (sanitize_para para) = false →
        paraOk (encodeAsciiIgnore para) = false →
        process_paragraph paraOk para = Except.error ())
    ∧ c ∉ encodeAsciiIgnore para := by
  have hne : ∀ d : Char, isAsciiChar d = true → c ≠ d := by
    intro d hd he
    rw [he, hd] at hna
    cases hna
  have notmem : ∀ p : List Char, p.all isAsciiChar = true → c ∉ p := by
    intro p hall hm
    exact hne _ (List.all_eq_true.mp hall c hm) rfl
  refine ⟨?_, ?_, ?_⟩
  · unfold sanitize_para restore_bold_tags xml_escape
    have m1 : c ∈ strReplace ['&'] ("&amp;".toList) para :=
      mem_strReplace_of_mem (notmem _ (by decide)) hc
    have m2 : c ∈ strReplace ['<'] ("&lt;".toList)
        (strReplace ['&'] ("&amp;".toList) para) :=
      mem_strReplace_of_mem (notmem _ (by decide)) m1
    have m3 : c ∈ xml_escape para :=
      mem_strReplace_of_mem (notmem _ (by decide)) m2
    have m4 : c ∈ strReplace ("&lt;b&gt;".toList) ("<b>".toList) (xml_escape para) :=
      mem_strReplace_of_mem (notmem _ (by decide)) m3
    exact mem_strReplace_of_mem (notmem _ (by decide)) m4
  · intro hstrip h1 h2
    unfold process_paragraph
    rw [if_pos hstrip]
    simp [h1, h2]
  · intro hm
    have := List.of_mem_filter hm
    rw [hna] at this
    cases this

/-- Witness for the amended C3: the rejected non-ASCII paragraph `"é"`
aborts the render. -/
theorem renderer_nonascii_behaviour_witness :
    process_paragraph (fun _ => false) ['é'] = Except.error () :=
  (renderer_nonascii_behaviour (fun _ => false) ['é'] 'é' (by decide) (by decide)).2.1
    (by decide) (by decide) (by decide)

/-- C10: when the primary sanitized form is rejected, the fallback renders
the pre-escaping paragraph with only its non-ASCII characters dropped; the
XML-reserved characters are not escaped there, so the fallback output can
differ from the ASCII restriction of the primary sanitization. -/
theorem renderer_fallback_unescaped
    (paraOk : List Char → Bool) (para : List Char)
    (hstrip : pyStrip para ≠ [])
    (h1 : paraOk (sanitize_para para) = false)
    (h2 : paraOk (encodeAsciiIgnore para) = true) :
    process_paragraph paraOk para
      = Except.ok (Flowable.para (encodeAsciiIgnore para) ("CustomBody".toList))
    ∧ encodeAsciiIgnore ("a&b".toList) ≠ encodeAsciiIgnore (sanitize_para ("a&b".toList))
    ∧ '&' ∈ encodeAsciiIgnore ("a&b".toList)
    ∧ containsSub ("&amp;".toList) (encodeAsciiIgnore ("a&b".toList)) = false := by
  refine ⟨?_, by decide, by decide, by decide⟩
  unfold process_paragraph
  rw [if_pos hstrip]
  simp [h1, h2]

/-- Witness for C10: a paragraph whose primary form is rejected but whose
ASCII-stripped fallback is accepted. -/
theorem renderer_fallback_unescaped_witness :
    process_paragraph (fun s => decide (s = ("&b".toList))) ("é&b".toList)
      = Except.ok (Flowable.para (encodeAsciiIgnore ("é&b".toList)) ("CustomBody".toList))
    ∧ encodeAsciiIgnore ("a&b".toList) ≠ encodeAsciiIgnore (sanitize_para ("a&b".toList))
    ∧ '&' ∈ encodeAsciiIgnore ("a&b".toList)
    ∧ containsSub ("&amp;".toList) (encodeAsciiIgnore ("a&b".toList)) = false :=
  renderer_fallback_unescaped (fun s => decide (s = ("&b".toList))) ("é&b".toList)
    (by decide) (by decide) (by decide)

/-! ## Pipeline cache: `st.session_state` (app.py lines 330-417)

The session keeps the current summary and language (set together on a
successful analysis, lines 333-335), the audio bytes with the flag
`audio_generated` (set together on a successful synthesis, lines 394-396).
`audioData` records the `(summary, language)` pair the audio was synthesized
from, so that staleness is expressible. -/

structure SessionState where
  summary : Option (List Char)
  language : List Char
  audioData : Option (List Char × List Char)
  audioGenerated : Bool
deriving DecidableEq

/-- The fresh Streamlit session: no summary, no audio, default language. -/
def initialSession : SessionState :=
  { summary := none, language := ("English".toList),
    audioData := none, audioGenerated := false }

/-- One user-visible transition of the session.  `analyze` is a successful
"Analyze Report" run (lines 330-335: store the new summary and language and
reset `audio_generated`); `analyzeFail` any failed run (`st.stop()`, state
unchanged); `genAudio` a successful "Generate Audio" click (lines 389-396);
`genAudioFail` a failed synthesis (lines 400-402, no state update). -/
inductive SessionStep (gen : List Char → List Char → List Char) :
    SessionState → SessionState → Prop
  | analyze (s : SessionState) (pages : List (Option (List Char)))
      (lang text : List Char)
      (h : analyzeReport gen pages lang = AnalyzeOutcome.summarized text) :
      SessionStep gen s
        { summary := some text, language := lang,
          audioData := s.audioData, audioGenerated := false }
  | analyzeFail (s : SessionState) : SessionStep gen s s
  | genAudio (s : SessionState) (sum : List Char) (h : s.summary = some sum) :
      SessionStep gen s
        { s with audioData := some (sum, s.language), audioGenerated := true }
  | genAudioFail (s : SessionState) : SessionStep gen s s

/-- A session state reachable from the fresh session. -/
def SessionReachable (gen : List Char → List Char → List Char)
    (s : SessionState) : Prop :=
  Relation.ReflTransGen (SessionStep gen) initialSession s

/-- Audio is only ever served (the player and download appear only when
`audio_generated` is set) when the cached bytes were synthesized from the
currently cached summary in the currently selected language. -/
def AudioConsistent (s : SessionState) : Prop :=
  s.audioGenerated = true →
    ∃ sum, s.summary = some sum ∧ s.audioData = some (sum, s.language)

/-- C5: in every reachable session state, a servable audio artifact matches
the live summary — generating a new summary (lines 333-335) clears
`audio_generated`, so a stale artifact is never served against it. -/
theorem session_audio_never_stale (gen : List Char → List Char → List Char)
    (s : SessionState) (h : SessionReachable gen s) : AudioConsistent s := by
  induction h with
  | refl => intro hg; cases hg
  | tail _ step ih =>
    cases step with
    | analyze pages lang text hsum => intro hg; cases hg
    | analyzeFail => exact ih
    | genAudio sum hsum =>
      intro _
      exact ⟨sum, hsum, rfl⟩
    | genAudioFail => exact ih

/-- A concrete report text used by the witnesses below (57 characters). -/
def demoText : List Char :=
  "This report shows hemoglobin 13.5 and glucose 92 levels.".toList

/-- A one-page document extracting to `demoText`. -/
def demoPages : List (Option (List Char)) := [some demoText]

/-- Witness for C5: a concrete three-step session (analyze in English,
synthesize audio, re-analyze in Hindi) reaches a state where the stale
audio is flagged unservable. -/
theorem session_audio_never_stale_witness :
    AudioConsistent
      { summary := some demoText, language := ("Hindi".toList),
        audioData := some (demoText, ("English".toList)),
        audioGenerated := false } := by
  apply session_audio_never_stale (fun t _ => t)
  have s1 : SessionStep (fun t _ => t) initialSession
      { summary := some demoText, language := ("English".toList),
        audioData := none, audioGenerated := false } :=
    SessionStep.analyze initialSession demoPages ("English".toList) demoText (by decide)
  have s2 : SessionStep (fun t _ => t)
      { summary := some demoText, language := ("English".toList),
        audioData := none, audioGenerated := false }
      { summary := some demoText, language := ("English".toList),
        audioData := some (demoText, ("English".toList)), audioGenerated := true } :=
    SessionStep.genAudio _ demoText rfl
  have s3 : SessionStep (fun t _ => t)
      { summary := some demoText, language := ("English".toList),
        audioData := some (demoText, ("English".toList)), audioGenerated := true }
      { summary := some demoText, language := ("Hindi".toList),
        audioData := some (demoText, ("English".toList)), audioGenerated := false } :=
    SessionStep.analyze _ demoPages ("Hindi".toList) demoText (by decide)
  exact Relation.ReflTransGen.tail
    (Relation.ReflTransGen.tail (Relation.ReflTransGen.single s1) s2) s3

/-- Witness for C1: a sufficient concrete report reaches the Summarizer. -/
theorem analyzeReport_gate_witness :
    analyzeReport (fun t _ => t) demoPages ("English".toList)
      = AnalyzeOutcome.summarized (extract_text_from_pdf demoPages) :=
  (analyzeReport_gate (fun t _ => t) demoPages ("English".toList)).2.2 (by decide)

/-! ## C4: information preservation of the renderer's escaping

`decodeEntities` is the decoding a standard markup consumer applies to the
three entity references the renderer can emit; it is the spec-side inverse
used to state recoverability. -/

/-- Per-character form of `xml_escape`. -/
def encChar (c : Char) : List Char :=
  if c = '&' then juxt₁
  else if c = '<' then juxt₂
  else if c = '>' then juxt₃
  else [c]
where
  juxt₁ : List Char := "&amp;".toList
  juxt₂ : List Char := "&lt;".toList
  juxt₃ : List Char := "&gt;".toList

theorem xml_escape_nil : xml_escape [] = [] := rfl

/-- The function `xml_escape` maps each character independently through `encChar`. -/
theorem xml_escape_cons (c : Char) (t : List Char) :
    xml_escape (c :: t) = encChar c ++ xml_escape t := by
  unfold xml_escape encChar
  rw [strReplace_single]
  by_cases h1 : c = '&'
  · rw [if_pos h1, if_pos h1]
    rw [strReplace_single_append, strReplace_single_append]
    have e1 : strReplace ['<'] ("&lt;".toList) ("&amp;".toList) = ("&amp;".toList) := by
      decide
    have e2 : strReplace ['>'] ("&gt;".toList) ("&amp;".toList) = ("&amp;".toList) := by
      decide
    rw [e1, e2]
    rfl
  · rw [if_neg h1, if_neg h1, strReplace_single]
    by_cases h2 : c = '<'
    · rw [if_pos h2, if_pos h2]
      rw [strReplace_single_append]
      have e1 : strReplace ['>'] ("&gt;".toList) ("&lt;".toList) = ("&lt;".toList) := by
        decide
      rw [e1]
      rfl
    · rw [if_neg h2, if_neg h2, strReplace_single]
      by_cases h3 : c = '>'
      · rw [if_pos h3, if_pos h3]
        rfl
      · rw [if_neg h3, if_neg h3]
        rfl

/-- Fuel-driven entity decoder (the fuel makes it kernel-evaluable). -/
def decodeEntitiesAux : Nat → List Char → List Char
  | 0, s => s
  | _ + 1, [] => []
  | f + 1, c :: rest =>
    if ("&amp;".toList).isPrefixOf (c :: rest) = true then
      '&' :: decodeEntitiesAux f (rest.drop 4)
    else if ("&lt;".toList).isPrefixOf (c :: rest) = true then
      '<' :: decodeEntitiesAux f (rest.drop 3)
    else if ("&gt;".toList).isPrefixOf (c :: rest) = true then
      '>' :: decodeEntitiesAux f (rest.drop 3)
    else
      c :: decodeEntitiesAux f rest

/-- Decoding of the renderer's three numeric/named entity escapes. -/
def decodeEntities (s : List Char) : List Char := decodeEntitiesAux s.length s

theorem decodeEntitiesAux_nil (f : Nat) : decodeEntitiesAux f [] = [] := by
  cases f <;> rfl

theorem decodeEntitiesAux_irrel :
    ∀ f₁ f₂ s, s.length ≤ f₁ → s.length ≤ f₂ →
      decodeEntitiesAux f₁ s = decodeEntitiesAux f₂ s := by
  intro f₁
  induction f₁ with
  | zero =>
    intro f₂ s h1 _
    have hs : s = [] := List.length_eq_zero.mp (Nat.le_zero.mp h1)
    subst hs
    simp [decodeEntitiesAux_nil]
  | succ f ih =>
    intro f₂ s h1 h2
    cases s with
    | nil => simp [decodeEntitiesAux_nil]
    | cons c rest =>
      cases f₂ with
      | zero => simp at h2
      | succ g =>
        have h1' : rest.length ≤ f := by simpa using h1
        have h2' : rest.length ≤ g := by simpa using h2
        have hd4 : (rest.drop 4).length ≤ rest.length := by simp [List.length_drop]
        have hd3 : (rest.drop 3).length ≤ rest.length := by simp [List.length_drop]
        simp only [decodeEntitiesAux]
        by_cases ha : ("&amp;".toList).isPrefixOf (c :: rest) = true
        · rw [if_pos ha, if_pos ha]
          exact congrArg _ (ih g _ (le_trans hd4 h1') (le_trans hd4 h2'))
        · rw [if_neg ha, if_neg ha]
          by_cases hl : ("&lt;".toList).isPrefixOf (c :: rest) = true
          · rw [if_pos hl, if_pos hl]
            exact congrArg _ (ih g _ (le_trans hd3 h1') (le_trans hd3 h2'))
          · rw [if_neg hl, if_neg hl]
            by_cases hg : ("&gt;".toList).isPrefixOf (c :: rest) = true
            · rw [if_pos hg, if_pos hg]
              exact congrArg _ (ih g _ (le_trans hd3 h1') (le_trans hd3 h2'))
            · rw [if_neg hg, if_neg hg]
              exact congrArg _ (ih g rest h1' h2')

/-- One-step unfolding of `decodeEntities` on a cons cell. -/
theorem decodeEntities_cons (c : Char) (rest : List Char) :
    decodeEntities (c :: rest)
      = if ("&amp;".toList).isPrefixOf (c :: rest) = true then
          '&' :: decodeEntities (rest.drop 4)
        else if ("&lt;".toList).isPrefixOf (c :: rest) = true then
          '<' :: decodeEntities (rest.drop 3)
        else if ("&gt;".toList).isPrefixOf (c :: rest) = true then
          '>' :: decodeEntities (rest.drop 3)
        else
          c :: decodeEntities rest := by
  unfold decodeEntities
  have hlen : (c :: rest).length = rest.length + 1 := rfl
  rw [hlen]
  have hd4 : (rest.drop 4).length ≤ rest.length := by simp [List.length_drop]
  have hd3 : (rest.drop 3).length ≤ rest.length := by simp [List.length_drop]
  simp only [decodeEntitiesAux]
  by_cases ha : ("&amp;".toList).isPrefixOf (c :: rest) = true
  · rw [if_pos ha, if_pos ha]
    exact congrArg _ (decodeEntitiesAux_irrel rest.length _ _ hd4 le_rfl)
  · rw [if_neg ha, if_neg ha]
    by_cases hl : ("&lt;".toList).isPrefixOf (c :: rest) = true
    · rw [if_pos hl, if_pos hl]
      exact congrArg _ (decodeEntitiesAux_irrel rest.length _ _ hd3 le_rfl)
    · rw [if_neg hl, if_neg hl]
      by_cases hg : ("&gt;".toList).isPrefixOf (c :: rest) = true
      · rw [if_pos hg, if_pos hg]
        exact congrArg _ (decodeEntitiesAux_irrel rest.length _ _ hd3 le_rfl)
      · rw [if_neg hg, if_neg hg]

/-- The decoder inverts the per-character encoding. -/
theorem decodeEntities_encChar (c : Char) (X : List Char) :
    decodeEntities (encChar c ++ X) = c :: decodeEntities X := by
  unfold encChar
  by_cases h1 : c = '&'
  · subst h1
    rw [if_pos rfl]
    rw [show encChar.juxt₁ ++ X = '&' :: 'a' :: 'm' :: 'p' :: ';' ::X from rfl]
    rw [decodeEntities_cons]
    rw [if_pos (by simp [List.isPrefixOf])]
    rfl
  · rw [if_neg h1]
    by_cases h2 : c = '<'
    · subst h2
      rw [if_pos rfl]
      rw [show encChar.juxt₂ ++ X = '&' :: 'l' :: 't' :: ';' ::X from rfl]
      rw [decodeEntities_cons]
      rw [if_neg (by simp [List.isPrefixOf]), if_pos (by simp [List.isPrefixOf])]
      rfl
    · rw [if_neg h2]
      by_cases h3 : c = '>'
      · subst h3
        rw [if_pos rfl]
        rw [show encChar.juxt₃ ++ X = '&' :: 'g' :: 't' :: ';' ::X from rfl]
        rw [decodeEntities_cons]
        rw [if_neg (by simp [List.isPrefixOf]), if_neg (by simp [List.isPrefixOf]),
            if_pos (by simp [List.isPrefixOf])]
        rfl
      · rw [if_neg h3]
        rw [show [c] ++ X = c :: X from rfl]
        rw [decodeEntities_cons]
        have hcn : ¬('&' = c) := fun he => h1 he.symm
        rw [if_neg (by simp [List.isPrefixOf, hcn]),
            if_neg (by simp [List.isPrefixOf, hcn]),
            if_neg (by simp [List.isPrefixOf, hcn])]

/-- Entity-decoding recovers any text from its escaped form. -/
theorem decodeEntities_xml_escape (s : List Char) :
    decodeEntities (xml_escape s) = s := by
  induction s with
  | nil => rfl
  | cons c t ih => rw [xml_escape_cons, decodeEntities_encChar, ih]

/-- The entity form of the bold tag, as a character list. -/
def entBold : List Char := ['&', 'l', 't', ';', 'b', '&', 'g', 't', ';']

/-- The entity form of the closing bold tag. -/
def entBoldClose : List Char := ['&', 'l', 't', ';', '/', 'b', '&', 'g', 't', ';']

/-- The literal bold tag. -/
def tagBold : List Char := ['<', 'b', '>']

/-- The literal closing bold tag. -/
def tagBoldClose : List Char := ['<', '/', 'b', '>']

theorem containsSub_eq_false_of_head_not_mem {a : Char} {s : List Char}
    (p : List Char) (h : a ∉ s) : containsSub (a :: p) s = false := by
  induction s with
  | nil => rfl
  | cons d t ih =>
    rw [containsSub_cons, Bool.or_eq_false_iff]
    refine ⟨?_, ih (fun hm => h (List.mem_cons_of_mem _ hm))⟩
    have had : ¬ a = d := fun he => h (he ▸ List.mem_cons_self _ _)
    simp [List.isPrefixOf, had]

theorem prefix_gt_escape (u : List Char)
    (h : (['&', 'g', 't', ';']).isPrefixOf (xml_escape u) = true) :
    ∃ u₂, u = '>' :: u₂ := by
  cases u with
  | nil => rw [xml_escape_nil] at h; simp [List.isPrefixOf] at h
  | cons e u₁ =>
    rw [xml_escape_cons] at h
    by_cases h1 : e = '&'
    · subst h1
      rw [show encChar '&' ++ xml_escape u₁
            = '&' :: 'a' :: 'm' :: 'p' :: ';' ::(xml_escape u₁) from rfl] at h
      simp [List.isPrefixOf] at h
    · by_cases h2 : e = '<'
      · subst h2
        rw [show encChar '<' ++ xml_escape u₁
              = '&' :: 'l' :: 't' :: ';' ::(xml_escape u₁) from rfl] at h
        simp [List.isPrefixOf] at h
      · by_cases h3 : e = '>'
        · exact ⟨u₁, by rw [h3]⟩
        · have he : encChar e = [e] := by
            unfold encChar
            rw [if_neg h1, if_neg h2, if_neg h3]
          rw [he, show [e] ++ xml_escape u₁ = e :: xml_escape u₁ from rfl] at h
          have hne : ¬('&' = e) := fun hx => h1 hx.symm
          simp [List.isPrefixOf, hne] at h

theorem prefix_bgt_escape (u : List Char)
    (h : (['b', '&', 'g', 't', ';']).isPrefixOf (xml_escape u) = true) :
    ∃ u₂, u = 'b' :: '>' :: u₂ := by
  cases u with
  | nil => rw [xml_escape_nil] at h; simp [List.isPrefixOf] at h
  | cons d u₁ =>
    rw [xml_escape_cons] at h
    by_cases h1 : d = '&'
    · subst h1
      rw [show encChar '&' ++ xml_escape u₁
            = '&' :: 'a' :: 'm' :: 'p' :: ';' ::(xml_escape u₁) from rfl] at h
      simp [List.isPrefixOf] at h
    · by_cases h2 : d = '<'
      · subst h2
        rw [show encChar '<' ++ xml_escape u₁
              = '&' :: 'l' :: 't' :: ';' ::(xml_escape u₁) from rfl] at h
        simp [List.isPrefixOf] at h
      · by_cases h3 : d = '>'
        · subst h3
          rw [show encChar '>' ++ xml_escape u₁
                = '&' :: 'g' :: 't' :: ';' ::(xml_escape u₁) from rfl] at h
          simp [List.isPrefixOf] at h
        · have he : encChar d = [d] := by
            unfold encChar
            rw [if_neg h1, if_neg h2, if_neg h3]
          rw [he, show [d] ++ xml_escape u₁ = d :: xml_escape u₁ from rfl] at h
          simp only [List.isPrefixOf, Bool.and_eq_true, beq_iff_eq] at h
          obtain ⟨hbd, hrest⟩ := h
          obtain ⟨u₂, hu⟩ := prefix_gt_escape u₁ hrest
          exact ⟨u₂, by rw [← hbd, hu]⟩

theorem prefix_sbgt_escape (u : List Char)
    (h : (['/', 'b', '&', 'g', 't', ';']).isPrefixOf (xml_escape u) = true) :
    ∃ u₂, u = '/' :: 'b' :: '>' :: u₂ := by
  cases u with
  | nil => rw [xml_escape_nil] at h; simp [List.isPrefixOf] at h
  | cons d u₁ =>
    rw [xml_escape_cons] at h
    by_cases h1 : d = '&'
    · subst h1
      rw [show encChar '&' ++ xml_escape u₁
            = '&' :: 'a' :: 'm' :: 'p' :: ';' ::(xml_escape u₁) from rfl] at h
      simp [List.isPrefixOf] at h
    · by_cases h2 : d = '<'
      · subst h2
        rw [show encChar '<' ++ xml_escape u₁
              = '&' :: 'l' :: 't' :: ';' ::(xml_escape u₁) from rfl] at h
        simp [List.isPrefixOf] at h
      · by_cases h3 : d = '>'
        · subst h3
          rw [show encChar '>' ++ xml_escape u₁
                = '&' :: 'g' :: 't' :: ';' ::(xml_escape u₁) from rfl] at h
          simp [List.isPrefixOf] at h
        · have he : encChar d = [d] := by
            unfold encChar
            rw [if_neg h1, if_neg h2, if_neg h3]
          rw [he, show [d] ++ xml_escape u₁ = d :: xml_escape u₁ from rfl] at h
          simp only [List.isPrefixOf, Bool.and_eq_true, beq_iff_eq] at h
          obtain ⟨hbd, hrest⟩ := h
          obtain ⟨u₂, hu⟩ := prefix_bgt_escape u₁ hrest
          exact ⟨u₂, by rw [← hbd, hu]⟩

theorem csub_entBold_amp (X : List Char) :
    containsSub entBold ('&' :: 'a' :: 'm' :: 'p' :: ';' ::X) = containsSub entBold X := by
  simp [entBold, containsSub_cons, List.isPrefixOf]

theorem csub_entBold_gt (X : List Char) :
    containsSub entBold ('&' :: 'g' :: 't' :: ';' ::X) = containsSub entBold X := by
  simp [entBold, containsSub_cons, List.isPrefixOf]

theorem csub_entBold_lt (X : List Char) :
    containsSub entBold ('&' :: 'l' :: 't' :: ';' ::X)
      = ((['b', '&', 'g', 't', ';']).isPrefixOf X || containsSub entBold X) := by
  simp [entBold, containsSub_cons, List.isPrefixOf]

theorem csub_entBold_ord (c : Char) (X : List Char) (h : ¬ c = '&') :
    containsSub entBold (c :: X) = containsSub entBold X := by
  simp [entBold, containsSub_cons, List.isPrefixOf, h, Ne.symm h]

theorem csub_entBoldClose_amp (X : List Char) :
    containsSub entBoldClose ('&' :: 'a' :: 'm' :: 'p' :: ';' ::X)
      = containsSub entBoldClose X := by
  simp [entBoldClose, containsSub_cons, List.isPrefixOf]

theorem csub_entBoldClose_gt (X : List Char) :
    containsSub entBoldClose ('&' :: 'g' :: 't' :: ';' ::X)
      = containsSub entBoldClose X := by
  simp [entBoldClose, containsSub_cons, List.isPrefixOf]

theorem csub_entBoldClose_lt (X : List Char) :
    containsSub entBoldClose ('&' :: 'l' :: 't' :: ';' ::X)
      = ((['/', 'b', '&', 'g', 't', ';']).isPrefixOf X
          || containsSub entBoldClose X) := by
  simp [entBoldClose, containsSub_cons, List.isPrefixOf]

theorem csub_entBoldClose_ord (c : Char) (X : List Char) (h : ¬ c = '&') :
    containsSub entBoldClose (c :: X) = containsSub entBoldClose X := by
  simp [entBoldClose, containsSub_cons, List.isPrefixOf, h, Ne.symm h]

/-- An occurrence of the bold-tag entity in escaped text comes from a literal
bold tag in the source text. -/
theorem scan_entBold :
    ∀ s, containsSub entBold (xml_escape s) = true
      → containsSub tagBold s = true := by
  intro s
  induction s with
  | nil => intro h; rw [xml_escape_nil] at h; simp [entBold, containsSub] at h
  | cons c t ih =>
    intro h
    rw [xml_escape_cons] at h
    by_cases h1 : c = '&'
    · subst h1
      rw [show encChar '&' ++ xml_escape t
            = '&' :: 'a' :: 'm' :: 'p' :: ';' ::(xml_escape t) from rfl,
          csub_entBold_amp] at h
      exact containsSub_tail _ (ih h)
    · by_cases h2 : c = '<'
      · subst h2
        rw [show encChar '<' ++ xml_escape t
              = '&' :: 'l' :: 't' :: ';' ::(xml_escape t) from rfl,
            csub_entBold_lt] at h
        rcases Bool.or_eq_true_iff.mp h with h | h
        · obtain ⟨t₂, ht⟩ := prefix_bgt_escape t h
          subst ht
          exact containsSub_of_isPrefixOf (by simp [tagBold, List.isPrefixOf])
        · exact containsSub_tail _ (ih h)
      · by_cases h3 : c = '>'
        · subst h3
          rw [show encChar '>' ++ xml_escape t
                = '&' :: 'g' :: 't' :: ';' ::(xml_escape t) from rfl,
              csub_entBold_gt] at h
          exact containsSub_tail _ (ih h)
        · have he : encChar c = [c] := by
            unfold encChar
            rw [if_neg h1, if_neg h2, if_neg h3]
          rw [he, show [c] ++ xml_escape t = c :: xml_escape t from rfl,
              csub_entBold_ord c _ h1] at h
          exact containsSub_tail _ (ih h)

/-- Same for the closing bold tag. -/
theorem scan_entBoldClose :
    ∀ s, containsSub entBoldClose (xml_escape s) = true
      → containsSub tagBoldClose s = true := by
  intro s
  induction s with
  | nil =>
    intro h
    rw [xml_escape_nil] at h
    simp [entBoldClose, containsSub] at h
  | cons c t ih =>
    intro h
    rw [xml_escape_cons] at h
    by_cases h1 : c = '&'
    · subst h1
      rw [show encChar '&' ++ xml_escape t
            = '&' :: 'a' :: 'm' :: 'p' :: ';' ::(xml_escape t) from rfl,
          csub_entBoldClose_amp] at h
      exact containsSub_tail _ (ih h)
    · by_cases h2 : c = '<'
      · subst h2
        rw [show encChar '<' ++ xml_escape t
              = '&' :: 'l' :: 't' :: ';' ::(xml_escape t) from rfl,
            csub_entBoldClose_lt] at h
        rcases Bool.or_eq_true_iff.mp h with h | h
        · obtain ⟨t₂, ht⟩ := prefix_sbgt_escape t h
          subst ht
          exact containsSub_of_isPrefixOf (by simp [tagBoldClose, List.isPrefixOf])
        · exact containsSub_tail _ (ih h)
      · by_cases h3 : c = '>'
        · subst h3
          rw [show encChar '>' ++ xml_escape t
                = '&' :: 'g' :: 't' :: ';' ::(xml_escape t) from rfl,
              csub_entBoldClose_gt] at h
          exact containsSub_tail _ (ih h)
        · have he : encChar c = [c] := by
            unfold encChar
            rw [if_neg h1, if_neg h2, if_neg h3]
          rw [he, show [c] ++ xml_escape t = c :: xml_escape t from rfl,
              csub_entBoldClose_ord c _ h1] at h
          exact containsSub_tail _ (ih h)

/-- Without literal bold tags in the text, the tag-restoring pass of the
sanitizer leaves the escaped text untouched. -/
theorem restore_bold_tags_noop (s : List Char)
    (hb : containsSub tagBold s = false)
    (hbc : containsSub tagBoldClose s = false) :
    restore_bold_tags (xml_escape s) = xml_escape s := by
  unfold restore_bold_tags
  have e1 : containsSub ("&lt;b&gt;".toList) (xml_escape s) = false := by
    cases hq : containsSub ("&lt;b&gt;".toList) (xml_escape s)
    · rfl
    · rw [show ("&lt;b&gt;".toList) = entBold from rfl] at hq
      exact absurd (scan_entBold s hq) (by rw [hb]; simp)
  rw [strReplace_eq_self_of_not_containsSub _ e1]
  have e2 : containsSub ("&lt;/b&gt;".toList) (xml_escape s) = false := by
    cases hq : containsSub ("&lt;/b&gt;".toList) (xml_escape s)
    · rfl
    · rw [show ("&lt;/b&gt;".toList) = entBoldClose from rfl] at hq
      exact absurd (scan_entBoldClose s hq) (by rw [hbc]; simp)
  rw [strReplace_eq_self_of_not_containsSub _ e2]

/-- Without asterisks or warning glyphs, the whole-summary cleaning pass is
the identity. -/
theorem renderer_clean_text_noop (s : List Char)
    (hstar : '*' ∉ s) (hw : '⚠' ∉ s) : renderer_clean_text s = s := by
  unfold renderer_clean_text renderer_markup_clean
  rw [strReplace_eq_self_of_not_containsSub _
      (containsSub_eq_false_of_head_not_mem ['*'] hstar)]
  rw [strReplace_eq_self_of_not_containsSub _ (containsSub_singleton_eq_false hstar)]
  rw [strReplace_eq_self_of_not_containsSub _ (containsSub_singleton_eq_false hw)]

/-- Splitting on an absent separator yields the single original part. -/
theorem pySplitOn_no_sep {sep : Char} :
    ∀ s : List Char, sep ∉ s → pySplitOn sep s = [s] := by
  intro s
  induction s with
  | nil => intro _; rfl
  | cons c t ih =>
    intro h
    have hct : sep ∉ t := fun hm => h (List.mem_cons_of_mem _ hm)
    have hcs : ¬ c = sep := fun he => h (he ▸ List.mem_cons_self _ _)
    unfold pySplitOn
    rw [ih hct]
    simp [hcs]

/-- C4 counterexample: the ASCII-only summary `"a*b"` renders identically to
`"ab"` — the asterisk is dropped by line 148, so rendering is not
information-preserving on ASCII text. -/
theorem renderer_ascii_asterisk_lost :
    ('*' ∈ ("a*b".toList) ∧ ("a*b".toList).all isAsciiChar = true)
    ∧ renderer_clean_text ("a*b".toList) = ("ab".toList)
    ∧ create_pdf_summary (fun _ => true) ("a*b".toList) ("English".toList)
        ("2025-01-01 10:00".toList)
      = create_pdf_summary (fun _ => true) ("ab".toList) ("English".toList)
        ("2025-01-01 10:00".toList) := by
  set_option maxRecDepth 40000 in decide

/-- C4 amended: for ASCII-only text with no asterisk and no literal bold
tag, the rendered body paragraph is exactly the XML-escaped text, and
entity-decoding recovers the original — no character is dropped, and the
`&`/`<`/`>` substitutions are losslessly reversible. -/
theorem renderer_ascii_lossless (s : List Char)
    (hascii : s.all isAsciiChar = true)
    (hstar : '*' ∉ s)
    (hb : containsSub ("<b>".toList) s = false)
    (hbc : containsSub ("</b>".toList) s = false) :
    sanitize_para (renderer_clean_text s) = xml_escape s
    ∧ decodeEntities (xml_escape s) = s
    ∧ ('\n' ∉ s → pyStrip s ≠ [] →
        ∀ paraOk : List Char → Bool, paraOk (xml_escape s) = true →
          build_body paraOk (pySplitOn '\n' (renderer_clean_text s))
            = Except.ok [Flowable.para (xml_escape s) ("CustomBody".toList)]) := by
  have hw : '⚠' ∉ s := by
    intro hm
    have hval := List.all_eq_true.mp hascii _ hm
    exact absurd hval (by decide)
  have hclean : renderer_clean_text s = s := renderer_clean_text_noop s hstar hw
  have hsan0 : sanitize_para s = xml_escape s := by
    unfold sanitize_para
    exact restore_bold_tags_noop s
      (by rw [show ("<b>".toList) = tagBold from rfl] at hb; exact hb)
      (by rw [show ("</b>".toList) = tagBoldClose from rfl] at hbc; exact hbc)
  refine ⟨by rw [hclean, hsan0], decodeEntities_xml_escape s, ?_⟩
  intro hnl hstrip paraOk hok
  rw [hclean, pySplitOn_no_sep s hnl]
  have hp : process_paragraph paraOk s
      = Except.ok (Flowable.para (xml_escape s) ("CustomBody".toList)) := by
    unfold process_paragraph
    rw [if_pos hstrip]
    simp only [hsan0, hok, if_true]
  unfold build_body
  rw [hp]
  rfl

/-- Witness for the amended C4 at a concrete lab-style line containing all
three escaped characters. -/
theorem renderer_ascii_lossless_witness :
    decodeEntities (xml_escape ("HbA1c < 5.7 & eAG > 100".toList))
        = ("HbA1c < 5.7 & eAG > 100".toList)
    ∧ build_body (fun _ => true)
        (pySplitOn '\n' (renderer_clean_text ("HbA1c < 5.7 & eAG > 100".toList)))
      = Except.ok [Flowable.para (xml_escape ("HbA1c < 5.7 & eAG > 100".toList))
          ("CustomBody".toList)] := by
  have h := renderer_ascii_lossless ("HbA1c < 5.7 & eAG > 100".toList)
    (by decide) (by decide) (by decide) (by decide)
  exact ⟨h.2.1, h.2.2 (by decide) (by decide) (fun _ => true) rfl⟩
